import Mathlib

/-
Verification of the call-tracker number-assignment protocol.

The development shallowly embeds the data model and the store-facing
operations of the Dashboard / CallHistory / Admin components:

* `fetchNextNumber` (claim-next): the query `status is null` plus
  `assigned_to is null or assigned_to = userId` (or `assigned_to is null`
  when no user id is present), `limit 1`, followed by the conditional
  assignment write.
* `updateStatus` (complete): the phone-number row update
  (status / called_at / assigned_to := null) followed by the history
  insert.  The two store writes can each fail, which is modelled by the
  two Boolean oracles `updateOk` and `historyOk`; the returned flag is
  the success reported to the caller.
* `fetchHistory` (history list): filter by operator, order by
  `called_at` descending, join each row's `phone_number_id` against the
  current `phone_numbers` table for display info.  A dangling join makes
  the client-side mapping throw, modelled by `Option`.
* `filteredHistory`: the client-side search filter.
* `deletePhoneNumber`: the admin removal.

The store is a pair of tables.  Row order of `phone_numbers` models the
store's enumeration order for queries that carry no `order` clause
(the claim-next select does not sort); it is not tied to `created_at`.
-/

namespace CallTracker

/-- Terminal call outcome; the nullable column `status` is `Option Outcome`
with `none` meaning unset. -/
inductive Outcome where
  | answered
  | no_answer
  | rejected
deriving DecidableEq, Repr

/-- A row of the `phone_numbers` table. -/
structure PhoneNumber where
  id : String
  phone_number : String
  name : String
  status : Option Outcome
  assigned_to : Option String
  called_at : Option Nat
  created_at : Nat
deriving DecidableEq, Repr

/-- A row of the `phone_calls_history` table, as inserted by
`updateStatus`: a reference to the phone number, the operator, the
outcome and the timestamp.  `id` is the store-generated key. -/
structure HistoryRow where
  id : String
  phone_number_id : String
  operator_id : String
  status : Outcome
  called_at : Nat
deriving DecidableEq, Repr

/-- The client-side history entry produced by `fetchHistory`: display
info is read from the joined `phone_numbers` row. -/
structure CallHistoryEntry where
  id : String
  phone_number : String
  name : String
  status : Outcome
  called_at : Nat
deriving DecidableEq, Repr

/-- The external store: the two tables the coordinator touches. -/
structure Store where
  phone_numbers : List PhoneNumber
  phone_calls_history : List HistoryRow
deriving DecidableEq, Repr

/-- Filter of the claim-next select: `status is null` and, when a user id
is present, `assigned_to is null or assigned_to = userId`; without a user
id, `assigned_to is null`. -/
def eligible (userId : Option String) (p : PhoneNumber) : Bool :=
  p.status.isNone &&
    (match userId with
     | some uid => p.assigned_to.isNone || decide (p.assigned_to = some uid)
     | none => p.assigned_to.isNone)

/-- The `limit 1` select of claim-next: the first row, in store order,
passing `eligible`.  The query carries no order clause. -/
def selectNext (userId : Option String) (pool : List PhoneNumber) :
    Option PhoneNumber :=
  (pool.filter (eligible userId)).head?

/-- The assignment write: `update phone_numbers set assigned_to = uid
where id = nid`, applied to one row. -/
def assignRow (uid : String) (nid : String) (p : PhoneNumber) : PhoneNumber :=
  if p.id = nid then { p with assigned_to := some uid } else p

/-- Claim-next (`fetchNextNumber` in the Dashboard): select one eligible
row; if one is found and a user id is present, write
`assigned_to = userId` on that row; return the selected row (the
pre-write snapshot, as the code keeps `data[0]`). -/
def fetchNextNumber (userId : Option String) (s : Store) :
    Store × Option PhoneNumber :=
  match selectNext userId s.phone_numbers with
  | none => (s, none)
  | some sel =>
    match userId with
    | some uid =>
        ({ s with phone_numbers := s.phone_numbers.map (assignRow uid sel.id) },
         some sel)
    | none => (s, some sel)

/-- The completion write applied to one row: `status = outcome`,
`called_at = now`, `assigned_to = null`, guarded by `id = nid`. -/
def completeRow (outcome : Outcome) (now : Nat) (nid : String)
    (p : PhoneNumber) : PhoneNumber :=
  if p.id = nid then
    { p with status := some outcome, called_at := some now,
             assigned_to := none }
  else p

/-- Complete (`updateStatus` in the Dashboard).  `currentNumber` and
`userId` are the component state; the code returns early when either is
absent.  `now1` and `now2` are the two `new Date()` timestamps, `hid`
the store-generated history key.  `updateOk` and `historyOk` say whether
each store write succeeds; on a failed write the code throws, so the
second write only runs when the first succeeded, and the returned flag
is the success reported to the caller. -/
def updateStatus (currentNumber : Option PhoneNumber)
    (userId : Option String) (outcome : Outcome) (now1 now2 : Nat)
    (hid : String) (updateOk historyOk : Bool) (s : Store) : Store × Bool :=
  match currentNumber, userId with
  | some cur, some uid =>
    if updateOk then
      let s1 : Store :=
        { s with phone_numbers :=
            s.phone_numbers.map (completeRow outcome now1 cur.id) }
      if historyOk then
        ({ s1 with phone_calls_history :=
            ⟨hid, cur.id, uid, outcome, now2⟩ :: s1.phone_calls_history },
         true)
      else (s1, false)
    else (s, false)
  | _, _ => (s, false)

/-- Ordering of the history query: `order called_at descending`
(newest first). -/
def newestFirst : HistoryRow → HistoryRow → Prop :=
  fun a b => b.called_at ≤ a.called_at

instance : DecidableRel newestFirst :=
  fun a b => inferInstanceAs (Decidable (b.called_at ≤ a.called_at))

instance : IsTotal HistoryRow newestFirst :=
  ⟨fun a b => le_total b.called_at a.called_at⟩

instance : IsTrans HistoryRow newestFirst :=
  ⟨fun _ _ _ hab hbc => le_trans hbc hab⟩

/-- The join of a history row against the current `phone_numbers` table:
the nested `phone_numbers (phone_number, name)` select resolved by
`phone_number_id`.  `none` when the referenced row no longer exists, in
which case the client-side mapping throws. -/
def formatEntry (pool : List PhoneNumber) (h : HistoryRow) :
    Option CallHistoryEntry :=
  (pool.find? (fun p => decide (p.id = h.phone_number_id))).map
    (fun p => ⟨h.id, p.phone_number, p.name, h.status, h.called_at⟩)

/-- History list (`fetchHistory` in CallHistory): rows with
`operator_id = userId`, ordered by `called_at` descending, each joined
with the current phone-number row for display info.  The whole fetch
fails (`none`) when any join dangles. -/
def fetchHistory (userId : String) (s : Store) :
    Option (List CallHistoryEntry) :=
  ((s.phone_calls_history.filter
      (fun h => decide (h.operator_id = userId))).insertionSort
      newestFirst).mapM (formatEntry s.phone_numbers)

/-- JS `String.prototype.includes`: substring containment. -/
def strIncludes (hay needle : String) : Bool :=
  decide (needle.toList <:+: hay.toList)

/-- JS `String.prototype.toLowerCase`: character-wise lowering. -/
def strToLower (s : String) : String :=
  String.mk (s.toList.map Char.toLower)

/-- The search predicate of `filteredHistory`: lowercased query against
lowercased name, or the raw query against the raw phone number. -/
def matchesSearch (searchQuery : String) (entry : CallHistoryEntry) : Bool :=
  strIncludes (strToLower entry.name) (strToLower searchQuery) ||
  strIncludes entry.phone_number searchQuery

/-- Client-side search filter of the history view. -/
def filteredHistory (searchQuery : String)
    (history : List CallHistoryEntry) : List CallHistoryEntry :=
  history.filter (matchesSearch searchQuery)

/-- Admin removal (`deletePhoneNumber` in the Admin page): delete the
`phone_numbers` row by id, unconditionally. -/
def deletePhoneNumber (nid : String) (s : Store) : Store :=
  { s with phone_numbers :=
      s.phone_numbers.filter (fun p => !(decide (p.id = nid))) }

/-! ### Helper lemmas -/

theorem head_filter_split {α : Type} {f : α → Bool} {l : List α} {p : α}
    (h : (l.filter f).head? = some p) :
    ∃ l1 l2, l = l1 ++ p :: l2 ∧ (∀ q ∈ l1, f q = false) ∧ f p = true := by
  induction l with
  | nil => cases h
  | cons a t ih =>
    by_cases ha : f a = true
    · rw [List.filter_cons_of_pos ha] at h
      injection h with h2
      subst h2
      exact ⟨[], t, rfl, fun q hq => absurd hq (List.not_mem_nil q), ha⟩
    · rw [List.filter_cons_of_neg ha] at h
      obtain ⟨l1, l2, rfl, hl1, hp⟩ := ih h
      refine ⟨a :: l1, l2, rfl, fun q hq => ?_, hp⟩
      rcases List.mem_cons.mp hq with rfl | hq
      · exact Bool.eq_false_iff.mpr ha
      · exact hl1 q hq

theorem head_filter_mem {α : Type} {f : α → Bool} {l : List α} {p : α}
    (h : (l.filter f).head? = some p) : p ∈ l ∧ f p = true := by
  obtain ⟨l1, l2, hl, _, hp⟩ := head_filter_split h
  exact ⟨hl ▸ List.mem_append_right l1 (List.mem_cons_self p l2), hp⟩

theorem selectNext_some {userId : Option String} {pool : List PhoneNumber}
    {p : PhoneNumber} (h : selectNext userId pool = some p) :
    p ∈ pool ∧ eligible userId p = true :=
  head_filter_mem h

theorem fetchNextNumber_some {userId : Option String} {s s2 : Store}
    {p : PhoneNumber} (h : fetchNextNumber userId s = (s2, some p)) :
    selectNext userId s.phone_numbers = some p := by
  unfold fetchNextNumber at h
  cases hsel : selectNext userId s.phone_numbers with
  | none => rw [hsel] at h; cases h
  | some sel =>
    rw [hsel] at h
    cases userId with
    | none => cases h; rfl
    | some uid => cases h; rfl

theorem eligible_status {userId : Option String} {p : PhoneNumber}
    (h : eligible userId p = true) : p.status = none := by
  unfold eligible at h
  exact Option.isNone_iff_eq_none.mp (Bool.and_elim_left h)

/-! ### C1: claim-next writes the assignment and returns the candidate -/

/-- C1.  If claim-next with an authenticated operator finds a candidate,
then the candidate is the row selected by the eligibility query, and in
the post-state every pool row bearing the candidate's id has
`assigned_to = operatorId`. -/
theorem claim_next_assigns_selected (uid : String) (s s2 : Store)
    (p : PhoneNumber) (h : fetchNextNumber (some uid) s = (s2, some p)) :
    eligible (some uid) p = true ∧ p ∈ s.phone_numbers ∧
    selectNext (some uid) s.phone_numbers = some p ∧
    ∀ q ∈ s2.phone_numbers, q.id = p.id → q.assigned_to = some uid := by
  have hsel := fetchNextNumber_some h
  have hmem := selectNext_some hsel
  refine ⟨hmem.2, hmem.1, hsel, ?_⟩
  have hs2 : s2.phone_numbers = s.phone_numbers.map (assignRow uid p.id) := by
    unfold fetchNextNumber at h
    rw [hsel] at h
    cases h
    rfl
  intro q hq hid
  rw [hs2] at hq
  obtain ⟨r, _, rfl⟩ := List.mem_map.mp hq
  unfold assignRow at hid ⊢
  by_cases hr : r.id = p.id
  · simp [hr]
  · simp only [if_neg hr] at hid
    exact absurd hid hr

/-! ### C2: claim-next only returns unset-status numbers -/

/-- C2.  Any number returned by claim-next has `status = none` (unset):
the select filters on `status is null`. -/
theorem claim_next_status_unset (userId : Option String) (s s2 : Store)
    (p : PhoneNumber) (h : fetchNextNumber userId s = (s2, some p)) :
    p.status = none :=
  eligible_status (selectNext_some (fetchNextNumber_some h)).2

/-! ### C3: claim-next never returns a number claimed by another operator -/

/-- C3.  Any number returned by claim-next has `assigned_to` null or
equal to the caller's operator id. -/
theorem claim_next_not_foreign_assigned (userId : Option String)
    (s s2 : Store) (p : PhoneNumber)
    (h : fetchNextNumber userId s = (s2, some p)) :
    p.assigned_to = none ∨
      ∃ uid, userId = some uid ∧ p.assigned_to = some uid := by
  have helig := (selectNext_some (fetchNextNumber_some h)).2
  unfold eligible at helig
  have hassign := Bool.and_elim_right helig
  cases userId with
  | none => exact Or.inl (Option.isNone_iff_eq_none.mp hassign)
  | some uid =>
    rcases Bool.or_eq_true_iff.mp hassign with hnull | heq
    · exact Or.inl (Option.isNone_iff_eq_none.mp hnull)
    · exact Or.inr ⟨uid, rfl, of_decide_eq_true heq⟩

/-! ### C10: anonymous claim-next performs no write -/

/-- C10.  Without an operator identity, claim-next leaves the store
unchanged, and any candidate it returns is an unassigned, unset row of
the pool. -/
theorem claim_next_anonymous_frame (s : Store) :
    (fetchNextNumber none s).1 = s ∧
    ∀ p, (fetchNextNumber none s).2 = some p →
      p ∈ s.phone_numbers ∧ p.assigned_to = none ∧ p.status = none := by
  constructor
  · unfold fetchNextNumber
    cases hsel : selectNext none s.phone_numbers <;> rfl
  · intro p h
    have hres : fetchNextNumber none s = ((fetchNextNumber none s).1, some p) := by
      rw [← h]
    have hsel := fetchNextNumber_some hres
    have hmem := selectNext_some hsel
    have helig := hmem.2
    unfold eligible at helig
    exact ⟨hmem.1, Option.isNone_iff_eq_none.mp (Bool.and_elim_right helig),
      eligible_status hmem.2⟩

/-! ### Witness fixtures -/

/-- A fresh, unassigned phone number used by the witnesses. -/
def wPhone : PhoneNumber := ⟨"n1", "+15551234", "Alice", none, none, none, 0⟩

/-- A one-row pool with empty history. -/
def wStore : Store := ⟨[wPhone], []⟩

/-- The phone number `wPhone` once claimed by opA. -/
def wPhoneClaimed : PhoneNumber :=
  ⟨"n1", "+15551234", "Alice", none, some "opA", none, 0⟩

/-- The pool after opA claims `wPhone`. -/
def wStoreAssigned : Store := ⟨[wPhoneClaimed], []⟩

theorem claim_next_assigns_selected_witness :
    eligible (some "opA") wPhone = true ∧ wPhone ∈ wStore.phone_numbers ∧
    selectNext (some "opA") wStore.phone_numbers = some wPhone ∧
    ∀ q ∈ wStoreAssigned.phone_numbers, q.id = wPhone.id →
      q.assigned_to = some "opA" :=
  claim_next_assigns_selected "opA" wStore wStoreAssigned wPhone (by decide)

theorem claim_next_status_unset_witness : wPhone.status = none :=
  claim_next_status_unset (some "opA") wStore wStoreAssigned wPhone (by decide)

theorem claim_next_not_foreign_assigned_witness :
    wPhone.assigned_to = none ∨
      ∃ uid, (some "opA" : Option String) = some uid ∧
        wPhone.assigned_to = some uid :=
  claim_next_not_foreign_assigned (some "opA") wStore wStoreAssigned wPhone
    (by decide)

theorem claim_next_anonymous_frame_witness :
    (fetchNextNumber none wStore).1 = wStore ∧
    ∀ p, (fetchNextNumber none wStore).2 = some p →
      p ∈ wStore.phone_numbers ∧ p.assigned_to = none ∧ p.status = none :=
  claim_next_anonymous_frame wStore

/-! ### C4: effects of a fully successful completion -/

/-- C4.  When both store writes succeed, complete reports success, every
pool row bearing the completed id has `status = outcome`,
`assigned_to = none` and `called_at` set, and the history gains exactly
one new entry carrying the number id, the operator id and the outcome. -/
theorem complete_success_effects (cur : PhoneNumber) (uid : String)
    (outcome : Outcome) (now1 now2 : Nat) (hid : String) (s : Store)
    (_hmem : ∃ q ∈ s.phone_numbers, q.id = cur.id) :
    (updateStatus (some cur) (some uid) outcome now1 now2 hid true true s).2 =
      true ∧
    (∀ q ∈ (updateStatus (some cur) (some uid) outcome now1 now2 hid true true
        s).1.phone_numbers, q.id = cur.id →
      q.status = some outcome ∧ q.assigned_to = none ∧
        q.called_at = some now1) ∧
    (updateStatus (some cur) (some uid) outcome now1 now2 hid true true
        s).1.phone_calls_history =
      ⟨hid, cur.id, uid, outcome, now2⟩ :: s.phone_calls_history := by
  refine ⟨rfl, ?_, rfl⟩
  intro q hq hqid
  have hpool : (updateStatus (some cur) (some uid) outcome now1 now2 hid true
      true s).1.phone_numbers =
      s.phone_numbers.map (completeRow outcome now1 cur.id) := rfl
  rw [hpool] at hq
  obtain ⟨r, _, rfl⟩ := List.mem_map.mp hq
  unfold completeRow at hqid ⊢
  by_cases hr : r.id = cur.id
  · simp [hr]
  · simp only [if_neg hr] at hqid
    exact absurd hqid hr

theorem complete_success_effects_witness :
    (updateStatus (some wPhoneClaimed) (some "opA") .answered 5 6 "h1" true
      true wStoreAssigned).2 = true ∧
    (∀ q ∈ (updateStatus (some wPhoneClaimed) (some "opA") .answered 5 6 "h1"
        true true wStoreAssigned).1.phone_numbers, q.id = wPhoneClaimed.id →
      q.status = some .answered ∧ q.assigned_to = none ∧
        q.called_at = some 5) ∧
    (updateStatus (some wPhoneClaimed) (some "opA") .answered 5 6 "h1" true
        true wStoreAssigned).1.phone_calls_history =
      ⟨"h1", wPhoneClaimed.id, "opA", .answered, 6⟩ ::
        wStoreAssigned.phone_calls_history :=
  complete_success_effects wPhoneClaimed "opA" .answered 5 6 "h1"
    wStoreAssigned (by decide)

/-! ### C5: history-insert failure reports failure without rollback -/

/-- C5.  When the number update succeeds but the history insert fails,
complete reports failure, the history is unchanged, and the first write
remains applied: every pool row bearing the id keeps the new status, the
timestamp, and the cleared assignment. -/
theorem complete_history_failure_no_rollback (cur : PhoneNumber)
    (uid : String) (outcome : Outcome) (now1 now2 : Nat) (hid : String)
    (s : Store) :
    (updateStatus (some cur) (some uid) outcome now1 now2 hid true false
      s).2 = false ∧
    (updateStatus (some cur) (some uid) outcome now1 now2 hid true false
        s).1.phone_calls_history = s.phone_calls_history ∧
    ∀ q ∈ (updateStatus (some cur) (some uid) outcome now1 now2 hid true false
        s).1.phone_numbers, q.id = cur.id →
      q.status = some outcome ∧ q.assigned_to = none ∧
        q.called_at = some now1 := by
  refine ⟨rfl, rfl, ?_⟩
  intro q hq hqid
  have hpool : (updateStatus (some cur) (some uid) outcome now1 now2 hid true
      false s).1.phone_numbers =
      s.phone_numbers.map (completeRow outcome now1 cur.id) := rfl
  rw [hpool] at hq
  obtain ⟨r, _, rfl⟩ := List.mem_map.mp hq
  unfold completeRow at hqid ⊢
  by_cases hr : r.id = cur.id
  · simp [hr]
  · simp only [if_neg hr] at hqid
    exact absurd hqid hr

theorem complete_history_failure_no_rollback_witness :
    (updateStatus (some wPhoneClaimed) (some "opA") .answered 5 6 "h1" true
      false wStoreAssigned).2 = false ∧
    (updateStatus (some wPhoneClaimed) (some "opA") .answered 5 6 "h1" true
        false wStoreAssigned).1.phone_calls_history =
      wStoreAssigned.phone_calls_history ∧
    ∀ q ∈ (updateStatus (some wPhoneClaimed) (some "opA") .answered 5 6 "h1"
        true false wStoreAssigned).1.phone_numbers, q.id = wPhoneClaimed.id →
      q.status = some .answered ∧ q.assigned_to = none ∧
        q.called_at = some 5 :=
  complete_history_failure_no_rollback wPhoneClaimed "opA" .answered 5 6 "h1"
    wStoreAssigned

/-! ### C9: search-filter semantics -/

/-- C9.  An entry passes the search filter exactly when the lowercased
query is a substring of the lowercased name, or the raw query is a
substring of the raw phone number: case handling is asymmetric between
the two fields, and matching on the number field is character-exact. -/
theorem search_filter_semantics (searchQuery : String)
    (hist : List CallHistoryEntry) (e : CallHistoryEntry) :
    e ∈ filteredHistory searchQuery hist ↔
      e ∈ hist ∧
        ((strToLower searchQuery).toList <:+: (strToLower e.name).toList ∨
          searchQuery.toList <:+: e.phone_number.toList) := by
  unfold filteredHistory matchesSearch strIncludes
  rw [List.mem_filter, Bool.or_eq_true_iff, decide_eq_true_eq,
    decide_eq_true_eq]

/-! ### C8: no creation-time selection order -/

/-- A later-created phone number sitting earlier in store order. -/
def cexBob : PhoneNumber := ⟨"B", "+2", "Bob", none, none, none, 1⟩

/-- An earlier-created phone number sitting later in store order. -/
def cexAnn : PhoneNumber := ⟨"A", "+1", "Ann", none, none, none, 0⟩

/-- A pool whose store order disagrees with creation order. -/
def cexStore : Store := ⟨[cexBob, cexAnn], []⟩

/-- C8 counterexample.  The claim-next select carries no order clause:
on a pool whose store order disagrees with creation order it returns a
row even though an eligible row with strictly earlier `created_at`
exists, so the returned number is not the eligible number with the
earliest creation time. -/
theorem claim_next_not_creation_order_cex :
    (fetchNextNumber (some "opA") cexStore).2 = some cexBob ∧
    cexAnn ∈ cexStore.phone_numbers ∧
    eligible (some "opA") cexAnn = true ∧
    cexAnn.created_at < cexBob.created_at := by decide

/-- C8 amended.  Claim-next picks the first eligible candidate in the
store's row-enumeration order: the returned number splits the pool into
a prefix of ineligible rows followed by itself.  No creation-time
ordering is requested by the query. -/
theorem claim_next_first_in_store_order (userId : Option String)
    (s s2 : Store) (p : PhoneNumber)
    (h : fetchNextNumber userId s = (s2, some p)) :
    ∃ l1 l2, s.phone_numbers = l1 ++ p :: l2 ∧
      (∀ q ∈ l1, eligible userId q = false) ∧ eligible userId p = true :=
  head_filter_split (fetchNextNumber_some h)

theorem claim_next_first_in_store_order_witness :
    ∃ l1 l2, cexStore.phone_numbers = l1 ++ cexBob :: l2 ∧
      (∀ q ∈ l1, eligible (some "opA") q = false) ∧
      eligible (some "opA") cexBob = true :=
  claim_next_first_in_store_order (some "opA") cexStore
    ⟨[⟨"B", "+2", "Bob", none, some "opA", none, 1⟩, cexAnn], []⟩ cexBob
    (by decide)

/-! ### Machinery for the history listing -/

theorem mapM_option_eq_some {α β : Type} (f : α → Option β) :
    ∀ (l : List α) (l2 : List β), l.mapM f = some l2 →
      List.Forall₂ (fun a b => f a = some b) l l2 := by
  intro l
  induction l with
  | nil =>
    intro l2 h
    rw [List.mapM_nil] at h
    injection h with h2
    subst h2
    exact List.Forall₂.nil
  | cons a t ih =>
    intro l2 h
    rw [List.mapM_cons] at h
    cases hfa : f a with
    | none => rw [hfa] at h; cases h
    | some b =>
      cases hmt : t.mapM f with
      | none => rw [hfa, hmt] at h; cases h
      | some bs =>
        rw [hfa, hmt] at h
        injection h with h2
        subst h2
        exact List.Forall₂.cons hfa (ih bs hmt)

theorem forall2_mem_right {α β : Type} {R : α → β → Prop} {l : List α}
    {l2 : List β} (hf : List.Forall₂ R l l2) {b : β} (hb : b ∈ l2) :
    ∃ a ∈ l, R a b := by
  induction hf with
  | nil => cases hb
  | cons hab htail ih =>
    rcases List.mem_cons.mp hb with rfl | hb2
    · exact ⟨_, List.mem_cons_self _ _, hab⟩
    · obtain ⟨a, ha, hr⟩ := ih hb2
      exact ⟨a, List.mem_cons_of_mem _ ha, hr⟩

theorem forall2_mem_left {α β : Type} {R : α → β → Prop} {l : List α}
    {l2 : List β} (hf : List.Forall₂ R l l2) {a : α} (ha : a ∈ l) :
    ∃ b ∈ l2, R a b := by
  induction hf with
  | nil => cases ha
  | cons hab htail ih =>
    rcases List.mem_cons.mp ha with rfl | ha2
    · exact ⟨_, List.mem_cons_self _ _, hab⟩
    · obtain ⟨b, hb, hr⟩ := ih ha2
      exact ⟨b, List.mem_cons_of_mem _ hb, hr⟩

theorem forall2_pairwise {α β : Type} {R : α → β → Prop} {S : α → α → Prop}
    {T : β → β → Prop}
    (hRS : ∀ a a' b b', R a b → R a' b' → S a a' → T b b') :
    ∀ {l : List α} {l2 : List β}, List.Forall₂ R l l2 → l.Pairwise S →
      l2.Pairwise T := by
  intro l l2 hf
  induction hf with
  | nil => intro _; exact List.Pairwise.nil
  | cons hab htail ih =>
    intro hp
    rcases List.pairwise_cons.mp hp with ⟨hall, hp2⟩
    refine List.Pairwise.cons ?_ (ih hp2)
    intro b2 hb2
    obtain ⟨a2, ha2, hr2⟩ := forall2_mem_right htail hb2
    exact hRS _ _ _ _ hab hr2 (hall a2 ha2)

theorem find?_eq_some_pred {α : Type} {f : α → Bool} {l : List α} {a : α}
    (h : l.find? f = some a) : a ∈ l ∧ f a = true :=
  ⟨List.mem_of_find?_eq_some h, List.find?_some h⟩

theorem formatEntry_some {pool : List PhoneNumber} {r : HistoryRow}
    {e : CallHistoryEntry} (h : formatEntry pool r = some e) :
    e.id = r.id ∧ e.status = r.status ∧ e.called_at = r.called_at ∧
    ∃ p ∈ pool, p.id = r.phone_number_id ∧
      e.phone_number = p.phone_number ∧ e.name = p.name := by
  unfold formatEntry at h
  cases hf : pool.find? (fun p => decide (p.id = r.phone_number_id)) with
  | none => rw [hf] at h; cases h
  | some p =>
    rw [hf] at h
    injection h with h2
    subst h2
    obtain ⟨hmem2, hpred⟩ := find?_eq_some_pred hf
    exact ⟨rfl, rfl, rfl, p, hmem2, of_decide_eq_true hpred, rfl, rfl⟩

/-! ### C7: the history listing is exactly the operator's rows, newest first -/

/-- C7.  A successful history fetch contains an entry for each of the
caller's history rows and nothing else (entries are matched to rows by
the row key, carrying its status and timestamp), and the result is
ordered by `called_at` descending. -/
theorem history_list_spec (uid : String) (s : Store)
    (l : List CallHistoryEntry) (h : fetchHistory uid s = some l) :
    (∀ e ∈ l, ∃ r ∈ s.phone_calls_history, r.operator_id = uid ∧
      r.id = e.id ∧ r.status = e.status ∧ r.called_at = e.called_at) ∧
    (∀ r ∈ s.phone_calls_history, r.operator_id = uid →
      ∃ e ∈ l, e.id = r.id ∧ e.status = r.status ∧
        e.called_at = r.called_at) ∧
    l.length = (s.phone_calls_history.filter
      (fun r => decide (r.operator_id = uid))).length ∧
    l.Pairwise (fun a b => b.called_at ≤ a.called_at) := by
  unfold fetchHistory at h
  have hf := mapM_option_eq_some (formatEntry s.phone_numbers) _ l h
  refine ⟨?_, ?_, ?_, ?_⟩
  · intro e he
    obtain ⟨r, hr, hre⟩ := forall2_mem_right hf he
    have hrmem := List.mem_filter.mp
      ((List.mem_insertionSort newestFirst).mp hr)
    obtain ⟨hid, hst, hca, _⟩ := formatEntry_some hre
    exact ⟨r, hrmem.1, of_decide_eq_true hrmem.2, hid.symm, hst.symm,
      hca.symm⟩
  · intro r hr hop
    have hrs : r ∈ (s.phone_calls_history.filter
        (fun x => decide (x.operator_id = uid))).insertionSort newestFirst :=
      (List.mem_insertionSort newestFirst).mpr
        (List.mem_filter.mpr ⟨hr, decide_eq_true hop⟩)
    obtain ⟨e, he, hre⟩ := forall2_mem_left hf hrs
    obtain ⟨hid, hst, hca, _⟩ := formatEntry_some hre
    exact ⟨e, he, hid, hst, hca⟩
  · rw [← hf.length_eq]
    exact List.Perm.length_eq (List.perm_insertionSort newestFirst _)
  · have hsorted : ((s.phone_calls_history.filter
        (fun x => decide (x.operator_id = uid))).insertionSort
          newestFirst).Pairwise newestFirst :=
      List.sorted_insertionSort newestFirst _
    refine forall2_pairwise ?_ hf hsorted
    intro a a2 b b2 hab ha2b2 hS
    obtain ⟨_, _, hca, _⟩ := formatEntry_some hab
    obtain ⟨_, _, hca2, _⟩ := formatEntry_some ha2b2
    rw [hca, hca2]
    exact hS

/-- A pool backing two history rows of opA and one of opB. -/
def wPool7 : List PhoneNumber :=
  [⟨"n1", "+1", "Ann", some .answered, none, some 10, 0⟩,
   ⟨"n2", "+2", "Bob", some .rejected, none, some 30, 1⟩]

/-- Three completed calls: opA at times 10 and 30, opB at time 20. -/
def wHist7 : List HistoryRow :=
  [⟨"h1", "n1", "opA", .answered, 10⟩,
   ⟨"h2", "n2", "opB", .no_answer, 20⟩,
   ⟨"h3", "n2", "opA", .rejected, 30⟩]

/-- The store of the history-listing witness. -/
def wStore7 : Store := ⟨wPool7, wHist7⟩

/-- The listing opA receives on `wStore7`: its two rows, newest first. -/
def wListing7 : List CallHistoryEntry :=
  [⟨"h3", "+2", "Bob", .rejected, 30⟩, ⟨"h1", "+1", "Ann", .answered, 10⟩]

theorem history_list_spec_witness :
    (∀ e ∈ wListing7, ∃ r ∈ wStore7.phone_calls_history,
      r.operator_id = "opA" ∧ r.id = e.id ∧ r.status = e.status ∧
        r.called_at = e.called_at) ∧
    (∀ r ∈ wStore7.phone_calls_history, r.operator_id = "opA" →
      ∃ e ∈ wListing7, e.id = r.id ∧ e.status = r.status ∧
        e.called_at = r.called_at) ∧
    wListing7.length = (wStore7.phone_calls_history.filter
      (fun r => decide (r.operator_id = "opA"))).length ∧
    wListing7.Pairwise (fun a b => b.called_at ≤ a.called_at) :=
  history_list_spec "opA" wStore7 wListing7 (by decide)

/-! ### C6: history display info is resolved live, not snapshotted -/

/-- The store after opA completes `wPhoneClaimed` with outcome answered
(both writes succeed). -/
def c6Completed : Store :=
  (updateStatus (some wPhoneClaimed) (some "opA") .answered 5 6 "h1" true
    true wStoreAssigned).1

/-- The entry opA's listing shows on `c6Completed`. -/
def c6Entry : CallHistoryEntry := ⟨"h1", "+15551234", "Alice", .answered, 6⟩

/-- C6 counterexample.  The history row created by complete stores only
the phone number's key; the listing joins the current `phone_numbers`
row, so deleting that row changes what the listing reports: before the
deletion opA's listing shows the entry with Alice's display info, after
it the fetch fails and reports no entry at all. -/
theorem history_not_snapshot_cex :
    fetchHistory "opA" c6Completed = some [c6Entry] ∧
    fetchHistory "opA" (deletePhoneNumber "n1" c6Completed) = none := by
  decide

/-- C6 amended.  Every entry of a successful history fetch takes its
display info (phone number and name) from the row of the current
`phone_numbers` table referenced by the history row's key — not from a
snapshot taken at completion time. -/
theorem history_display_from_current_row (uid : String) (s : Store)
    (l : List CallHistoryEntry) (e : CallHistoryEntry)
    (h : fetchHistory uid s = some l) (he : e ∈ l) :
    ∃ r ∈ s.phone_calls_history, r.operator_id = uid ∧ r.id = e.id ∧
      ∃ p ∈ s.phone_numbers, p.id = r.phone_number_id ∧
        e.phone_number = p.phone_number ∧ e.name = p.name := by
  unfold fetchHistory at h
  have hf := mapM_option_eq_some (formatEntry s.phone_numbers) _ l h
  obtain ⟨r, hr, hre⟩ := forall2_mem_right hf he
  have hrmem := List.mem_filter.mp
    ((List.mem_insertionSort newestFirst).mp hr)
  obtain ⟨hid, _, _, p, hp, hpid, hph, hnm⟩ := formatEntry_some hre
  exact ⟨r, hrmem.1, of_decide_eq_true hrmem.2, hid.symm, p, hp, hpid, hph,
    hnm⟩

theorem history_display_from_current_row_witness :
    ∃ r ∈ c6Completed.phone_calls_history, r.operator_id = "opA" ∧
      r.id = c6Entry.id ∧
      ∃ p ∈ c6Completed.phone_numbers, p.id = r.phone_number_id ∧
        c6Entry.phone_number = p.phone_number ∧ c6Entry.name = p.name :=
  history_display_from_current_row "opA" c6Completed [c6Entry] c6Entry
    (by decide) (by decide)

end CallTracker
